import Mathlib

/-!
Formal model of the torchcde worked example (`example/example.py`): a shallow
embedding of its tensors, linear layers, the `CDEFunc` and `NeuralCDE`
modules, the spiral data generator `get_data`, the training loop and the
evaluation phase, together with theorems settling the specification's claims
about them.  Tensor entries are modelled as rationals; the external
trigonometric, hyperbolic and sigmoid functions of the tensor runtime are
abstract parameters, as are the natural-cubic-spline and CDE-integration
routines of the differential-equation library.
-/

/-- A tensor: a shape together with an indexing function.  The indexing
function is meaningful on multi-indices that are pointwise below the shape. -/
structure Tensor where
  shape : List Nat
  data : List Nat → ℚ

/-- Number of elements of a tensor. -/
def Tensor.numel (t : Tensor) : Nat := t.shape.prod

/-- Pointwise application of a scalar function (torch.tanh, torch.cos, ...). -/
def Tensor.mapData (f : ℚ → ℚ) (t : Tensor) : Tensor :=
  { shape := t.shape, data := fun idx => f (t.data idx) }

/-- A tensor filled with zeros. -/
def Tensor.zeros (s : List Nat) : Tensor := { shape := s, data := fun _ => 0 }

/-- Row-major flattening of a multi-index with respect to a shape. -/
def flattenIdx : List Nat → List Nat → Nat
  | [], _ => 0
  | _ :: _, [] => 0
  | _ :: ds, i :: is => i * ds.prod + flattenIdx ds is

/-- Inverse of `flattenIdx`: recover a multi-index from a flat offset. -/
def unflattenIdx : List Nat → Nat → List Nat
  | [], _ => []
  | _ :: ds, n => n / ds.prod :: unflattenIdx ds (n % ds.prod)

/-- torch `Tensor.view`: reshaping succeeds exactly when the element counts of
the old and new shapes agree, and reindexes the same flat data. -/
def Tensor.view (t : Tensor) (s : List Nat) : Option Tensor :=
  if s.prod = t.shape.prod then
    some { shape := s,
           data := fun idx => t.data (unflattenIdx t.shape (flattenIdx s idx)) }
  else none

/-- Indexing `t[:, i]`: requires at least two dimensions and `i` below the
second dimension; the second dimension is removed. -/
def Tensor.select1 (t : Tensor) (i : Nat) : Option Tensor :=
  match t.shape with
  | b :: d :: rest =>
      if i < d then
        some { shape := b :: rest,
               data := fun idx => t.data (idx.headD 0 :: i :: idx.tail) }
      else none
  | _ => none

/-- torch `squeeze(-1)`: drop the final dimension when it equals 1, otherwise
return the tensor unchanged. -/
def Tensor.squeezeLast (t : Tensor) : Tensor :=
  if t.shape.getLast? = some 1 then
    { shape := t.shape.dropLast, data := fun idx => t.data (idx ++ [0]) }
  else t

/-- torch.nn.Linear: an affine layer with `inF` input features and `outF`
output features. -/
structure Linear where
  inF : Nat
  outF : Nat
  weight : Nat → Nat → ℚ
  bias : Nat → ℚ

/-- Applying an affine layer: defined on tensors whose trailing dimension is
the layer's input-feature count; the trailing dimension becomes `outF` and
every batch dimension is preserved. -/
def Linear.apply (L : Linear) (t : Tensor) : Option Tensor :=
  if t.shape.getLast? = some L.inF then
    some { shape := t.shape.dropLast ++ [L.outF],
           data := fun idx =>
             L.bias (idx.getLastD 0) +
               ∑ i ∈ Finset.range L.inF,
                 L.weight (idx.getLastD 0) i * t.data (idx.dropLast ++ [i]) }
  else none

theorem Linear.apply_shape (L : Linear) (t : Tensor) (b : List Nat)
    (h : t.shape = b ++ [L.inF]) :
    ∃ u, L.apply t = some u ∧ u.shape = b ++ [L.outF] := by
  unfold Linear.apply
  rw [h]
  simp

/-- The vector-field network of the example: `linear1 : H → 128`, a `tanh`
nonlinearity, `linear2 : 128 → input_channels * hidden_channels`, and a final
reshape into matrix form. -/
structure CDEFunc where
  input_channels : Nat
  hidden_channels : Nat
  linear1 : Linear
  linear2 : Linear

/-- The constructor of `CDEFunc`, mirroring its `__init__`: the first layer
maps `hidden_channels` to 128, the second maps 128 to
`input_channels * hidden_channels`. -/
def CDEFunc.init (input_channels hidden_channels : Nat)
    (w1 : Nat → Nat → ℚ) (b1 : Nat → ℚ) (w2 : Nat → Nat → ℚ) (b2 : Nat → ℚ) :
    CDEFunc :=
  { input_channels := input_channels
    hidden_channels := hidden_channels
    linear1 := { inF := hidden_channels, outF := 128, weight := w1, bias := b1 }
    linear2 := { inF := 128, outF := input_channels * hidden_channels,
                 weight := w2, bias := b2 } }

/-- The part of `CDEFunc.forward` before the final reshape: the first affine
layer, the pointwise `tanh`, and the second affine layer. -/
def CDEFunc.preReshape (f : CDEFunc) (tanhF : ℚ → ℚ) (z : Tensor) :
    Option Tensor :=
  (f.linear1.apply z).bind fun z1 => f.linear2.apply (z1.mapData tanhF)

/-- `CDEFunc.forward`: the affine-tanh-affine pipeline followed by the view
`z.view(*z.shape[:-1], hidden_channels, input_channels)`. -/
def CDEFunc.forward (f : CDEFunc) (tanhF : ℚ → ℚ) (z : Tensor) :
    Option Tensor :=
  (f.preReshape tanhF z).bind fun z3 =>
    z3.view (z3.shape.dropLast ++ [f.hidden_channels, f.input_channels])

theorem CDEFunc.preReshape_shape (inC hidC : Nat)
    (w1 : Nat → Nat → ℚ) (b1 : Nat → ℚ) (w2 : Nat → Nat → ℚ) (b2 : Nat → ℚ)
    (tanhF : ℚ → ℚ) (b : List Nat) (z : Tensor)
    (h : z.shape = b ++ [hidC]) :
    ∃ u, (CDEFunc.init inC hidC w1 b1 w2 b2).preReshape tanhF z = some u ∧
      u.shape = b ++ [inC * hidC] := by
  obtain ⟨u1, hu1, hu1s⟩ :=
    Linear.apply_shape (CDEFunc.init inC hidC w1 b1 w2 b2).linear1 z b h
  obtain ⟨u2, hu2, hu2s⟩ :=
    Linear.apply_shape (CDEFunc.init inC hidC w1 b1 w2 b2).linear2
      (u1.mapData tanhF) b (by simpa [Tensor.mapData] using hu1s)
  exact ⟨u2, by simp [CDEFunc.preReshape, hu1, hu2], hu2s⟩

/-- Constant-zero bias used to instantiate layers at concrete inputs. -/
def zfun : Nat → ℚ := fun _ => 0

/-- Constant-zero weight matrix used to instantiate layers at concrete
inputs. -/
def zfun2 : Nat → Nat → ℚ := fun _ _ => 0

/-- C4: for every input tensor whose trailing dimension equals
`hidden_channels` (with any batch-dimension prefix), `CDEFunc.forward`
returns a tensor whose shape is the batch prefix with a trailing
`(hidden_channels, input_channels)` pair appended, computed as the first
affine layer, a pointwise tanh, the second affine layer, and a reshape into
matrix form. -/
theorem claim_C4_cdefunc_forward_shape (inC hidC : Nat)
    (w1 : Nat → Nat → ℚ) (b1 : Nat → ℚ) (w2 : Nat → Nat → ℚ) (b2 : Nat → ℚ)
    (tanhF : ℚ → ℚ) (b : List Nat) (z : Tensor)
    (h : z.shape = b ++ [hidC]) :
    ∃ u, (CDEFunc.init inC hidC w1 b1 w2 b2).forward tanhF z = some u ∧
      u.shape = b ++ [hidC, inC] ∧
      ∃ z3, (CDEFunc.init inC hidC w1 b1 w2 b2).preReshape tanhF z = some z3 ∧
        z3.view (z3.shape.dropLast ++ [hidC, inC]) = some u := by
  obtain ⟨z3, hz3, hz3s⟩ :=
    CDEFunc.preReshape_shape inC hidC w1 b1 w2 b2 tanhF b z h
  have hview : z3.view (z3.shape.dropLast ++ [hidC, inC])
      = some { shape := z3.shape.dropLast ++ [hidC, inC],
               data := fun idx => z3.data (unflattenIdx z3.shape
                 (flattenIdx (z3.shape.dropLast ++ [hidC, inC]) idx)) } := by
    unfold Tensor.view
    rw [if_pos]
    rw [hz3s]
    simp [Nat.mul_comm]
  refine ⟨{ shape := z3.shape.dropLast ++ [hidC, inC],
            data := fun idx => z3.data (unflattenIdx z3.shape
              (flattenIdx (z3.shape.dropLast ++ [hidC, inC]) idx)) },
    ?_, ?_, z3, hz3, hview⟩
  · unfold CDEFunc.forward
    rw [hz3]
    simpa [CDEFunc.init] using hview
  · rw [hz3s]
    simp

/-- Witness for C4 at a concrete input: batch prefix `[3]`, hidden width 8,
two input channels, zero weights, identity in place of tanh. -/
theorem claim_C4_witness :
    (Tensor.zeros [3, 8]).shape = [3] ++ [8] ∧
    ∃ u, (CDEFunc.init 2 8 zfun2 zfun zfun2 zfun).forward (fun x => x)
        (Tensor.zeros [3, 8]) = some u ∧
      u.shape = [3] ++ [8, 2] ∧
      ∃ z3, (CDEFunc.init 2 8 zfun2 zfun zfun2 zfun).preReshape (fun x => x)
          (Tensor.zeros [3, 8]) = some z3 ∧
        z3.view (z3.shape.dropLast ++ [8, 2]) = some u :=
  ⟨rfl, claim_C4_cdefunc_forward_shape 2 8 zfun2 zfun zfun2 zfun
    (fun x => x) [3] (Tensor.zeros [3, 8]) rfl⟩

/-- C10: the reshape at the end of `CDEFunc.forward` can never fail: for
every input whose trailing dimension equals `hidden_channels`, the output of
the second affine layer has trailing dimension exactly
`input_channels * hidden_channels`, so the view into
`(..., hidden_channels, input_channels)` always succeeds. -/
theorem claim_C10_view_never_fails (inC hidC : Nat)
    (w1 : Nat → Nat → ℚ) (b1 : Nat → ℚ) (w2 : Nat → Nat → ℚ) (b2 : Nat → ℚ)
    (tanhF : ℚ → ℚ) (b : List Nat) (z : Tensor)
    (h : z.shape = b ++ [hidC]) :
    ∃ z3, (CDEFunc.init inC hidC w1 b1 w2 b2).preReshape tanhF z = some z3 ∧
      z3.shape.getLast? = some (inC * hidC) ∧
      (z3.view (z3.shape.dropLast ++ [hidC, inC])).isSome = true := by
  obtain ⟨z3, hz3, hz3s⟩ :=
    CDEFunc.preReshape_shape inC hidC w1 b1 w2 b2 tanhF b z h
  refine ⟨z3, hz3, by rw [hz3s]; simp, ?_⟩
  unfold Tensor.view
  rw [if_pos]
  · simp
  · rw [hz3s]
    simp [Nat.mul_comm]

/-- Witness for C10 at a concrete input: batch prefix `[3]`, hidden width 8,
two input channels. -/
theorem claim_C10_witness :
    (Tensor.zeros [3, 8]).shape = [3] ++ [8] ∧
    ∃ z3, (CDEFunc.init 2 8 zfun2 zfun zfun2 zfun).preReshape (fun x => x)
        (Tensor.zeros [3, 8]) = some z3 ∧
      z3.shape.getLast? = some (2 * 8) ∧
      (z3.view (z3.shape.dropLast ++ [8, 2])).isSome = true :=
  ⟨rfl, claim_C10_view_never_fails 2 8 zfun2 zfun zfun2 zfun
    (fun x => x) [3] (Tensor.zeros [3, 8]) rfl⟩

/-- Modelled from the spec: the interface of the external
differential-equation library (its implementation lives in the repository's
library package, not under the example source): a natural-cubic-spline
builder turning an opaque coefficient bundle into a continuous path, point
evaluation of the path, and the `cdeint` integration routine taking the
path, the vector field, an initial hidden state and a vector of query times,
and returning hidden states at each queried time. -/
structure CDELib (K P : Type) where
  naturalCubicSpline : K → P
  evaluate : P → ℚ → Tensor
  cdeint : P → (Tensor → Option Tensor) → Tensor → List ℚ → Tensor

/-- The composite Neural CDE model: an initial affine map from the observed
channels to the hidden channels, the vector-field network, and an affine
readout from the hidden channels to the output channels. -/
structure NeuralCDE where
  hidden_channels : Nat
  initial : Linear
  func : CDEFunc
  linear : Linear

/-- The constructor of `NeuralCDE`, mirroring its `__init__`. -/
def NeuralCDE.init (input_channels hidden_channels output_channels : Nat)
    (wi : Nat → Nat → ℚ) (bi : Nat → ℚ)
    (w1 : Nat → Nat → ℚ) (b1 : Nat → ℚ) (w2 : Nat → Nat → ℚ) (b2 : Nat → ℚ)
    (wl : Nat → Nat → ℚ) (bl : Nat → ℚ) : NeuralCDE :=
  { hidden_channels := hidden_channels
    initial := { inF := input_channels, outF := hidden_channels,
                 weight := wi, bias := bi }
    func := CDEFunc.init input_channels hidden_channels w1 b1 w2 b2
    linear := { inF := hidden_channels, outF := output_channels,
                weight := wl, bias := bl } }

/-- `NeuralCDE.forward`, translated line by line from the source: build the
spline from the coefficients, evaluate it at the initial time, map through
the `initial` layer to get `z0`, call `cdeint` on the concatenated pair of
times, take `z_T[:, 1]`, and apply the readout layer. -/
def NeuralCDE.forward {K P : Type} (lib : CDELib K P) (m : NeuralCDE)
    (tanhF : ℚ → ℚ) (coeffs : K) (initial_t final_t : ℚ) : Option Tensor :=
  let cubic_spline := lib.naturalCubicSpline coeffs
  (m.initial.apply (lib.evaluate cubic_spline initial_t)).bind fun z0 =>
    let z_T := lib.cdeint cubic_spline (fun z => m.func.forward tanhF z) z0
      ([initial_t] ++ [final_t])
    (z_T.select1 1).bind fun z_T1 => m.linear.apply z_T1

/-- The forward pass as the specification words it: evaluate the interpolant
at the initial time to obtain the starting observation, map it through the
learned affine transform to obtain the initial hidden state, invoke the
CDE-integration routine with the vector-field network, the initial state and
the two-point time grid, keep only the hidden state at index 1 while
discarding the index-0 state, and map the kept state through the readout. -/
def NeuralCDE.forwardSpec {K P : Type} (lib : CDELib K P) (m : NeuralCDE)
    (tanhF : ℚ → ℚ) (coeffs : K) (initial_t final_t : ℚ) : Option Tensor :=
  let startingObservation :=
    lib.evaluate (lib.naturalCubicSpline coeffs) initial_t
  (m.initial.apply startingObservation).bind fun z0 =>
    let hiddenStates := lib.cdeint (lib.naturalCubicSpline coeffs)
      (fun z => m.func.forward tanhF z) z0 [initial_t, final_t]
    (hiddenStates.select1 1).bind fun finalHidden => m.linear.apply finalHidden

/-- C1: for every coefficient bundle, initial time and final time,
`NeuralCDE.forward` performs exactly the specified steps in the specified
order: spline evaluation at the initial time, the `initial` affine layer,
the call to the external integrator on the two-point grid, keeping index 1
of the returned states and discarding index 0, and the affine readout. -/
theorem claim_C1_forward_step_order {K P : Type} (lib : CDELib K P)
    (m : NeuralCDE) (tanhF : ℚ → ℚ) (coeffs : K) (initial_t final_t : ℚ) :
    NeuralCDE.forward lib m tanhF coeffs initial_t final_t
      = NeuralCDE.forwardSpec lib m tanhF coeffs initial_t final_t := rfl

/-- Modelled from the spec: a concrete shape-faithful instance of the
external library used to exercise the model at concrete inputs — the spline
evaluated at a point returns a `(batch, input_channels)` observation and
`cdeint` returns a `(batch, len t, hidden_channels)` stack of hidden states,
here with batch 2, two input channels and three hidden channels. -/
def demoLib : CDELib Unit Unit :=
  { naturalCubicSpline := fun _ => ()
    evaluate := fun _ _ => Tensor.zeros [2, 2]
    cdeint := fun _ _ _ ts => Tensor.zeros [2, ts.length, 3] }

/-- A concrete `NeuralCDE` with two input channels, three hidden channels,
one output channel and zero weights. -/
def demoModel : NeuralCDE :=
  NeuralCDE.init 2 3 1 zfun2 zfun zfun2 zfun zfun2 zfun zfun2 zfun

/-- Counterexample to C2 as stated: at a concrete instance with batch size 2
and `output_channels = 1`, the tensor returned by `NeuralCDE.forward` has
shape `[2, 1]`, not the bare batch shape `[2]`; the trailing dimension is
removed only by the `squeeze(-1)` that the caller in `main` applies. -/
theorem claim_C2_counterexample :
    (NeuralCDE.forward demoLib demoModel (fun x => x) () 0 1).map Tensor.shape
        = some [2, 1] ∧
      some [2, 1] ≠ some ([2] : List Nat) := by
  constructor
  · rfl
  · simp

/-- C2 amended: under the library's shape contracts (point evaluation gives a
`(batch, input_channels)` tensor and `cdeint` gives a
`(batch, number of query times, hidden_channels)` tensor),
`NeuralCDE.forward` with `output_channels = 1` returns a tensor of shape
`(batch, 1)`, and the `squeeze(-1)` applied by the caller in `main` turns it
into the bare batch shape `(batch,)` with one scalar per sample. -/
theorem claim_C2_amended {K P : Type} (lib : CDELib K P)
    (inC hidC batch : Nat)
    (wi : Nat → Nat → ℚ) (bi : Nat → ℚ)
    (w1 : Nat → Nat → ℚ) (b1 : Nat → ℚ) (w2 : Nat → Nat → ℚ) (b2 : Nat → ℚ)
    (wl : Nat → Nat → ℚ) (bl : Nat → ℚ)
    (tanhF : ℚ → ℚ) (coeffs : K) (initial_t final_t : ℚ)
    (hEval : (lib.evaluate (lib.naturalCubicSpline coeffs) initial_t).shape
      = [batch, inC])
    (hCde : ∀ g z0 ts, (lib.cdeint (lib.naturalCubicSpline coeffs) g z0 ts).shape
      = [batch, ts.length, hidC]) :
    ∃ y, NeuralCDE.forward lib
        (NeuralCDE.init inC hidC 1 wi bi w1 b1 w2 b2 wl bl)
        tanhF coeffs initial_t final_t = some y ∧
      y.shape = [batch, 1] ∧ y.squeezeLast.shape = [batch] := by
  obtain ⟨z0, hz0, hz0s⟩ := Linear.apply_shape
    (NeuralCDE.init inC hidC 1 wi bi w1 b1 w2 b2 wl bl).initial
    (lib.evaluate (lib.naturalCubicSpline coeffs) initial_t) [batch]
    (by simpa [NeuralCDE.init] using hEval)
  have hzs : (lib.cdeint (lib.naturalCubicSpline coeffs)
      (fun z => (NeuralCDE.init inC hidC 1 wi bi w1 b1 w2 b2 wl bl).func.forward
        tanhF z) z0 ([initial_t] ++ [final_t])).shape = [batch, 2, hidC] :=
    hCde _ _ _
  have hsel : ∃ z1, (lib.cdeint (lib.naturalCubicSpline coeffs)
      (fun z => (NeuralCDE.init inC hidC 1 wi bi w1 b1 w2 b2 wl bl).func.forward
        tanhF z) z0 ([initial_t] ++ [final_t])).select1 1 = some z1 ∧
      z1.shape = [batch, hidC] := by
    unfold Tensor.select1
    rw [hzs]
    simp
  obtain ⟨z1, hz1, hz1s⟩ := hsel
  obtain ⟨y, hy, hys⟩ := Linear.apply_shape
    (NeuralCDE.init inC hidC 1 wi bi w1 b1 w2 b2 wl bl).linear z1 [batch]
    (by simpa [NeuralCDE.init] using hz1s)
  refine ⟨y, ?_, by simpa using hys, ?_⟩
  · unfold NeuralCDE.forward
    simp only [hz0, Option.some_bind, hz1]
    exact hy
  · unfold Tensor.squeezeLast
    have : y.shape = [batch, 1] := by simpa using hys
    rw [this]
    simp

/-- Witness for the amended C2 at the concrete demo instance: batch 2, one
output channel; the forward pass returns shape `[2, 1]` and the caller's
`squeeze(-1)` yields `[2]`. -/
theorem claim_C2_witness :
    (demoLib.evaluate (demoLib.naturalCubicSpline ()) 0).shape = [2, 2] ∧
    (∀ g z0 ts, (demoLib.cdeint (demoLib.naturalCubicSpline ()) g z0 ts).shape
      = [2, ts.length, 3]) ∧
    ∃ y, NeuralCDE.forward demoLib
        (NeuralCDE.init 2 3 1 zfun2 zfun zfun2 zfun zfun2 zfun zfun2 zfun)
        (fun x => x) () 0 1 = some y ∧
      y.shape = [2, 1] ∧ y.squeezeLast.shape = [2] :=
  ⟨rfl, fun _ _ _ => rfl,
    claim_C2_amended demoLib 2 3 2 zfun2 zfun zfun2 zfun zfun2 zfun zfun2 zfun
      (fun x => x) () 0 1 rfl (fun _ _ _ => rfl)⟩

/-- The mathematical environment of the script: the constant pi and the
cosine and sine functions of the tensor runtime, kept abstract. -/
structure MathEnv where
  pi : ℚ
  fcos : ℚ → ℚ
  fsin : ℚ → ℚ

/-- One draw of the random generator inside `get_data`: the uniform samples
behind `torch.rand(128)`, the uniform samples behind
`torch.rand(128, 100, 2)`, and the permutation behind `torch.randperm(128)`.
`get_data` is a pure function of this draw. -/
structure RNGDraw where
  startU : Fin 128 → ℚ
  noiseU : Fin 128 → Fin 100 → Fin 2 → ℚ
  perm : Equiv.Perm (Fin 128)

/-- `torch.linspace a b steps` at position `j`. -/
def linspaceVal (a b : ℚ) (steps : Nat) (j : Nat) : ℚ :=
  a + (b - a) * j / ((steps : ℚ) - 1)

/-- `times[i][j] = start[i] + linspace(0, 4*pi, 100)[j]` with
`start = torch.rand(128) * 2 * pi`. -/
def timesArr (env : MathEnv) (d : RNGDraw) (i : Fin 128) (j : Fin 100) : ℚ :=
  d.startU i * 2 * env.pi + linspaceVal 0 (4 * env.pi) 100 j

/-- The x channel before the sign flip: `cos(times) / (1 + 0.5 * times)`. -/
def x_pos_base (env : MathEnv) (d : RNGDraw) (i : Fin 128) (j : Fin 100) : ℚ :=
  env.fcos (timesArr env d i j) / (1 + (1 / 2) * timesArr env d i j)

/-- The x channel after `x_pos[:64] *= -1`: the first 64 generated samples
have their x channel sign-flipped. -/
def x_pos (env : MathEnv) (d : RNGDraw) (i : Fin 128) (j : Fin 100) : ℚ :=
  if i.val < 64 then -x_pos_base env d i j else x_pos_base env d i j

/-- The y channel: `sin(times) / (1 + 0.5 * times)`. -/
def y_pos (env : MathEnv) (d : RNGDraw) (i : Fin 128) (j : Fin 100) : ℚ :=
  env.fsin (timesArr env d i j) / (1 + (1 / 2) * timesArr env d i j)

/-- `torch.stack([x_pos, y_pos], dim=2)`. -/
def posStack (env : MathEnv) (d : RNGDraw) (i : Fin 128) (j : Fin 100)
    (c : Fin 2) : ℚ :=
  if c.val = 0 then x_pos env d i j else y_pos env d i j

/-- `0.06 * torch.rand(128, 100, 2) - 0.03`. -/
def noiseAdd (d : RNGDraw) (i : Fin 128) (j : Fin 100) (c : Fin 2) : ℚ :=
  (6 / 100) * d.noiseU i j c - 3 / 100

/-- The trajectories before the permutation: `X = pos + additive_noise`. -/
def Xpre (env : MathEnv) (d : RNGDraw) (i : Fin 128) (j : Fin 100)
    (c : Fin 2) : ℚ :=
  posStack env d i j c + noiseAdd d i j c

/-- The labels before the permutation: `y = torch.zeros(128); y[:64] = 1`. -/
def labelsPre : Fin 128 → ℚ := fun i => if i.val < 64 then 1 else 0

/-- The triple returned by `get_data`. -/
structure Dataset where
  t : Fin 100 → ℚ
  X : Fin 128 → Fin 100 → Fin 2 → ℚ
  y : Fin 128 → ℚ

/-- `get_data`: generate the spirals, flip the x channel of the first 64
samples, add noise, label the first 64 samples 1 and the rest 0, then apply
the same random permutation to both `X` and `y`; the returned time grid is
`torch.linspace(0, 99, 100)`. -/
def get_data (env : MathEnv) (d : RNGDraw) : Dataset :=
  { t := fun j => linspaceVal 0 99 100 j
    X := fun i => Xpre env d (d.perm i)
    y := fun i => labelsPre (d.perm i) }

/-- C3: exactly 64 of the pre-permutation labels equal 1 and exactly 64
equal 0, and the permutation only reorders the labels: the multiset of label
values returned by `get_data` equals the multiset of pre-permutation label
values, for every environment and random draw. -/
theorem claim_C3_balanced_labels :
    ((Finset.univ.filter fun i : Fin 128 => labelsPre i = 1).card = 64 ∧
      (Finset.univ.filter fun i : Fin 128 => labelsPre i = 0).card = 64) ∧
    ∀ (env : MathEnv) (d : RNGDraw),
      Multiset.map (get_data env d).y Finset.univ.val
        = Multiset.map labelsPre Finset.univ.val := by
  refine ⟨⟨by decide, by decide⟩, ?_⟩
  intro env d
  have hperm : Multiset.map (fun i => d.perm i) Finset.univ.val
      = Finset.univ.val := by
    have := Finset.map_univ_equiv d.perm
    calc Multiset.map (fun i => d.perm i) Finset.univ.val
        = (Finset.univ.map d.perm.toEmbedding).val := rfl
      _ = Finset.univ.val := by rw [this]
  calc Multiset.map (get_data env d).y Finset.univ.val
      = Multiset.map labelsPre
          (Multiset.map (fun i => d.perm i) Finset.univ.val) := by
        rw [Multiset.map_map]
        rfl
    _ = Multiset.map labelsPre Finset.univ.val := by rw [hperm]

/-- A concrete environment with zero constants, used to instantiate
theorems about `get_data` at a concrete input. -/
def defaultEnv : MathEnv := { pi := 0, fcos := fun _ => 0, fsin := fun _ => 0 }

/-- A concrete random draw: zero uniform samples and the identity
permutation. -/
def defaultDraw : RNGDraw :=
  { startU := fun _ => 0, noiseU := fun _ _ _ => 0, perm := Equiv.refl _ }

/-- C8: `get_data` is a deterministic function of the random-generator
state: two calls on equal draws produce identical times, trajectories and
labels. -/
theorem claim_C8_get_data_deterministic (env : MathEnv) (d₁ d₂ : RNGDraw)
    (h : d₁ = d₂) : get_data env d₁ = get_data env d₂ := by rw [h]

/-- Witness for C8 at the concrete default environment and draw. -/
theorem claim_C8_witness :
    defaultDraw = defaultDraw ∧
    get_data defaultEnv defaultDraw = get_data defaultEnv defaultDraw :=
  ⟨rfl, claim_C8_get_data_deterministic defaultEnv defaultDraw defaultDraw rfl⟩

/-- C9: the trajectory-label pairing survives the shuffle: the same
permutation indexes both `X` and `y`, so after the permutation a sample's
label equals 1 exactly when the generated sample it came from is among the
first 64, i.e. exactly when its x channel was sign-flipped during
generation. -/
theorem claim_C9_pairing_survives_shuffle (env : MathEnv) (d : RNGDraw)
    (j : Fin 128) :
    ((get_data env d).y j = 1 ↔ (d.perm j).val < 64) ∧
    (get_data env d).X j = Xpre env d (d.perm j) ∧
    ∀ k : Fin 100, x_pos env d (d.perm j) k =
      if (d.perm j).val < 64 then -x_pos_base env d (d.perm j) k
      else x_pos_base env d (d.perm j) k := by
  refine ⟨?_, rfl, fun k => rfl⟩
  simp only [get_data, labelsPre]
  by_cases h : (d.perm j).val < 64
  · simp [h]
  · simp [h]

/-- Number of batches a sequential data loader forms over `n` samples with
the given batch size (last partial batch kept). -/
def numBatches (n batch : Nat) : Nat := (n + batch - 1) / batch

/-- The sample indices of the `k`-th sequential batch. -/
def batchIndices (n batch k : Nat) : List Nat :=
  (List.range (min batch (n - batch * k))).map fun i => batch * k + i

/-- The batches a sequential data loader without shuffling yields over `n`
samples: consecutive index blocks of the given batch size, in the same order
on every pass. -/
def dataBatches (n batch : Nat) : List (List Nat) :=
  (List.range (numBatches n batch)).map (batchIndices n batch)

/-- One epoch of the inner training loop: fold the batch step over the batch
list, threading the model-and-optimizer state and overwriting the loss
variable on every batch, exactly as the `for batch in train_dataloader` loop
does. -/
def runEpochSL {S B L : Type*} (step : S → B → S × L) (batches : List B)
    (sl : S × L) : S × L :=
  batches.foldl (fun p b => step p.1 b) sl

/-- The training loop `for epoch in range(n)`: run each epoch over the same
batch list and record, after each epoch, the current value of the loss
variable — the value the script prints. -/
def trainLoop {S B L : Type*} (step : S → B → S × L) (batches : List B) :
    Nat → S × L → (S × L) × List L
  | 0, sl => (sl, [])
  | n + 1, sl =>
    ((trainLoop step batches n (runEpochSL step batches sl)).1,
     (runEpochSL step batches sl).2 ::
       (trainLoop step batches n (runEpochSL step batches sl)).2)

/-- The state reached after one epoch, ignoring losses. -/
def epochState {S B L : Type*} (step : S → B → S × L) (batches : List B)
    (s : S) : S :=
  batches.foldl (fun s b => (step s b).1) s

/-- The loss of every batch of one epoch, in batch order, starting from the
given state. -/
def batchLossList {S B L : Type*} (step : S → B → S × L) :
    S → List B → List L
  | _, [] => []
  | s, b :: bs => (step s b).2 :: batchLossList step (step s b).1 bs

theorem runEpochSL_eq {S B L : Type*} (step : S → B → S × L)
    (batches : List B) : ∀ (s : S) (l : L),
    runEpochSL step batches (s, l)
      = (epochState step batches s, (batchLossList step s batches).getLastD l) := by
  induction batches with
  | nil => intro s l; rfl
  | cons b bs ih =>
    intro s l
    have h1 : runEpochSL step (b :: bs) (s, l)
        = runEpochSL step bs ((step s b).1, (step s b).2) := by
      simp [runEpochSL]
    rw [h1, ih]
    show (epochState step bs (step s b).1,
        (batchLossList step (step s b).1 bs).getLastD (step s b).2)
      = (epochState step (b :: bs) s,
        ((step s b).2 :: batchLossList step (step s b).1 bs).getLastD l)
    rw [List.getLastD_cons]
    rfl

theorem trainLoop_printed {S B L : Type*} (step : S → B → S × L)
    (batches : List B) (hne : batches ≠ []) : ∀ (n : Nat) (s : S) (l : L),
    (trainLoop step batches n (s, l)).2
      = (List.range n).map fun e =>
          (batchLossList step ((epochState step batches)^[e] s) batches).getLastD l := by
  intro n
  induction n with
  | zero => intro s l; rfl
  | succ n ih =>
    intro s l
    obtain ⟨b, bs, rfl⟩ := List.exists_cons_of_ne_nil hne
    have hrun := runEpochSL_eq step (b :: bs) s l
    show (runEpochSL step (b :: bs) (s, l)).2 ::
        (trainLoop step (b :: bs) n (runEpochSL step (b :: bs) (s, l))).2 = _
    rw [hrun, ih, List.range_succ_eq_map, List.map_cons, List.map_map]
    congr 1

/-- C5: the training loop runs exactly 100 epochs over the same four batches
of fixed size 32 in the same order every epoch (the data loader is built
once, without shuffling), and the loss recorded at the end of each epoch is
the loss of that epoch's final minibatch — the last entry of that epoch's
per-batch loss list — not an aggregate over the epoch. -/
theorem claim_C5_training_schedule {S L : Type*} (step : S → List Nat → S × L)
    (s0 : S) (l0 : L) :
    (dataBatches 128 32).map List.length = [32, 32, 32, 32] ∧
    (trainLoop step (dataBatches 128 32) 100 (s0, l0)).2.length = 100 ∧
    (trainLoop step (dataBatches 128 32) 100 (s0, l0)).2
      = (List.range 100).map fun e =>
          (batchLossList step ((epochState step (dataBatches 128 32))^[e] s0)
            (dataBatches 128 32)).getLastD l0 := by
  have hb : dataBatches 128 32 ≠ [] := by decide
  refine ⟨by decide, ?_, trainLoop_printed step _ hb 100 s0 l0⟩
  rw [trainLoop_printed step _ hb 100 s0 l0]
  simp

/-- The observable events of `main`, in program order: the two calls to the
data generator, the two spline-coefficient computations, and for each epoch
and batch the forward pass, the loss computation, the backward pass, the
optimizer step and the gradient reset, followed by the per-epoch loss print
and the final evaluation phase. -/
inductive Ev : Type where
  | getDataEv : Nat → Ev
  | computeCoeffs : Nat → Ev
  | forwardPass : Nat → Nat → Ev
  | lossComp : Nat → Nat → Ev
  | backwardComp : Nat → Nat → Ev
  | optStep : Nat → Nat → Ev
  | zeroGrad : Nat → Nat → Ev
  | printLoss : Nat → Ev
  | evalPhaseEv : Ev
  deriving DecidableEq

/-- The five events of one batch iteration of the training loop, in the
order the source performs them. -/
def batchEvents (e i : Nat) : List Ev :=
  [Ev.forwardPass e i, Ev.lossComp e i, Ev.backwardComp e i,
   Ev.optStep e i, Ev.zeroGrad e i]

/-- The events of the first `nB` batch iterations of epoch `e`. -/
def epochTraceAux (e : Nat) : Nat → List Ev
  | 0 => []
  | i + 1 => epochTraceAux e i ++ batchEvents e i

/-- The events of one full epoch: all its batch iterations followed by the
loss print. -/
def epochEvents (nB e : Nat) : List Ev := epochTraceAux e nB ++ [Ev.printLoss e]

/-- The events of the first `nE` epochs of the training loop. -/
def trainTrace (nB : Nat) : Nat → List Ev
  | 0 => []
  | e + 1 => trainTrace nB e ++ epochEvents nB e

/-- The event trace of `main` with `nE` epochs of `nB` batches: data
generation and spline-coefficient computation happen once before the loop,
and the test data generation, test coefficient computation and evaluation
happen once after it. -/
def mainTrace (nE nB : Nat) : List Ev :=
  [Ev.getDataEv 0, Ev.computeCoeffs 0] ++ trainTrace nB nE ++
    [Ev.getDataEv 1, Ev.computeCoeffs 1, Ev.evalPhaseEv]

theorem epochTraceAux_decomp (e i : Nat) : ∀ nB, i < nB →
    ∃ A Z, epochTraceAux e nB = A ++ batchEvents e i ++ Z := by
  intro nB
  induction nB with
  | zero => intro h; exact absurd h (Nat.not_lt_zero i)
  | succ nB ih =>
    intro h
    rcases Nat.lt_succ_iff_lt_or_eq.mp h with h' | h'
    · obtain ⟨A, Z, hAZ⟩ := ih h'
      exact ⟨A, Z ++ batchEvents e nB, by
        simp [epochTraceAux, hAZ, List.append_assoc]⟩
    · subst h'
      exact ⟨epochTraceAux e i, [], by simp [epochTraceAux]⟩

theorem trainTrace_decomp (nB e : Nat) : ∀ nE, e < nE →
    ∃ A Z, trainTrace nB nE = A ++ epochEvents nB e ++ Z := by
  intro nE
  induction nE with
  | zero => intro h; exact absurd h (Nat.not_lt_zero e)
  | succ nE ih =>
    intro h
    rcases Nat.lt_succ_iff_lt_or_eq.mp h with h' | h'
    · obtain ⟨A, Z, hAZ⟩ := ih h'
      exact ⟨A, Z ++ epochEvents nB nE, by
        simp [trainTrace, hAZ, List.append_assoc]⟩
    · subst h'
      exact ⟨trainTrace nB e, [], by simp [trainTrace]⟩

theorem mainTrace_decomp (nE nB e i : Nat) (he : e < nE) (hi : i < nB) :
    ∃ l1 l2, mainTrace nE nB = l1 ++ batchEvents e i ++ l2 := by
  obtain ⟨A, Z, hAZ⟩ := trainTrace_decomp nB e nE he
  obtain ⟨A', Z', hAZ'⟩ := epochTraceAux_decomp e i nB hi
  refine ⟨[Ev.getDataEv 0, Ev.computeCoeffs 0] ++ A ++ A',
    Z' ++ [Ev.printLoss e] ++ Z ++
      [Ev.getDataEv 1, Ev.computeCoeffs 1, Ev.evalPhaseEv], ?_⟩
  simp [mainTrace, hAZ, epochEvents, hAZ', List.append_assoc]

theorem count_batchEvents_optStep (e i e' i' : Nat) :
    (batchEvents e' i').count (Ev.optStep e i)
      = if e = e' then (if i = i' then 1 else 0) else 0 := by
  by_cases he : e = e'
  · subst he
    by_cases hi : i = i'
    · subst hi
      simp [batchEvents]
    · have h' : Ev.optStep e i ≠ Ev.optStep e i' := by
        intro hc
        injection hc with h1 h2
        exact hi h2
      simp [batchEvents, h', hi]
  · have h' : ∀ i', Ev.optStep e i ≠ Ev.optStep e' i' := by
      intro i' hc
      injection hc with h1 h2
      exact he h1
    simp [batchEvents, h', he]

theorem count_epochTraceAux_optStep (e i e' : Nat) : ∀ nB,
    (epochTraceAux e' nB).count (Ev.optStep e i)
      = if e = e' then (if i < nB then 1 else 0) else 0 := by
  intro nB
  induction nB with
  | zero => simp [epochTraceAux]
  | succ nB ih =>
    rw [epochTraceAux, List.count_append, ih, count_batchEvents_optStep]
    by_cases he : e = e'
    · subst he
      simp only [if_pos rfl]
      split_ifs <;> omega
    · simp [he]

theorem count_trainTrace_optStep (e i nB : Nat) : ∀ nE,
    (trainTrace nB nE).count (Ev.optStep e i)
      = if e < nE then (if i < nB then 1 else 0) else 0 := by
  intro nE
  induction nE with
  | zero => simp [trainTrace]
  | succ nE ih =>
    rw [trainTrace, List.count_append, ih]
    unfold epochEvents
    rw [List.count_append, count_epochTraceAux_optStep]
    have hp : ([Ev.printLoss nE]).count (Ev.optStep e i) = 0 := by simp
    rw [hp]
    split_ifs <;> omega

theorem count_mainTrace_optStep (nE nB e i : Nat) :
    (mainTrace nE nB).count (Ev.optStep e i)
      = if e < nE then (if i < nB then 1 else 0) else 0 := by
  unfold mainTrace
  rw [List.count_append, List.count_append, count_trainTrace_optStep]
  simp

theorem eq_split_of_count_one {α : Type*} [DecidableEq α] (a : α) :
    ∀ (p q l1 l2 : List α), p ++ a :: q = l1 ++ a :: l2 →
      (p ++ a :: q).count a = 1 → p = l1 := by
  intro p
  induction p with
  | nil =>
    intro q l1 l2 h hc
    cases l1 with
    | nil => rfl
    | cons x xs =>
      rw [List.nil_append, List.cons_append] at h
      injection h with h1 h2
      rw [List.nil_append, List.count_cons_self] at hc
      have hq : q.count a = 0 := by omega
      have hmem : a ∈ q := by
        rw [h2]
        simp
      rw [List.count_eq_zero] at hq
      exact absurd hmem hq
  | cons x p ih =>
    intro q l1 l2 h hc
    cases l1 with
    | nil =>
      rw [List.nil_append, List.cons_append] at h
      injection h with h1 h2
      rw [h1] at hc
      rw [List.cons_append, List.count_cons_self] at hc
      have hq : (p ++ a :: q).count a = 0 := by omega
      rw [List.count_eq_zero] at hq
      exact absurd (by simp) hq
    | cons y l1' =>
      rw [List.cons_append, List.cons_append] at h
      injection h with h1 h2
      by_cases hax : a = x
      · rw [← hax] at hc
        rw [List.cons_append, List.count_cons_self] at hc
        have hq : (p ++ a :: q).count a = 0 := by omega
        rw [List.count_eq_zero] at hq
        exact absurd (by simp) hq
      · have hc' : (p ++ a :: q).count a = 1 := by
          rw [List.cons_append, List.count_cons_of_ne hax] at hc
          exact hc
        rw [ih q l1' l2 h2 hc', h1]

theorem computeCoeffs_not_mem_epochTraceAux (j e : Nat) : ∀ nB,
    Ev.computeCoeffs j ∉ epochTraceAux e nB := by
  intro nB
  induction nB with
  | zero => simp [epochTraceAux]
  | succ nB ih =>
    intro h
    rw [epochTraceAux, List.mem_append] at h
    rcases h with h | h
    · exact ih h
    · simp [batchEvents] at h

theorem computeCoeffs_not_mem_trainTrace (j nB : Nat) : ∀ nE,
    Ev.computeCoeffs j ∉ trainTrace nB nE := by
  intro nE
  induction nE with
  | zero => simp [trainTrace]
  | succ nE ih =>
    intro h
    rw [trainTrace, List.mem_append] at h
    rcases h with h | h
    · exact ih h
    · rw [epochEvents, List.mem_append] at h
      rcases h with h | h
      · exact computeCoeffs_not_mem_epochTraceAux j nE nB h
      · simp at h

/-- C6: within every batch iteration of the training loop the events occur
contiguously in exactly the order forward pass, loss, backward, optimizer
step, gradient reset; the optimizer step of a batch occurs exactly once and
never before that batch's backward pass; and no spline-coefficient
computation ever occurs inside the training loop. -/
theorem claim_C6_batch_step_order (nE nB e i : Nat) (he : e < nE)
    (hi : i < nB) :
    (∃ l1 l2, mainTrace nE nB = l1 ++ batchEvents e i ++ l2) ∧
    (mainTrace nE nB).count (Ev.optStep e i) = 1 ∧
    (∀ u v, mainTrace nE nB = u ++ Ev.optStep e i :: v →
      Ev.backwardComp e i ∈ u) ∧
    ∀ j, Ev.computeCoeffs j ∉ trainTrace nB nE := by
  have hdec := mainTrace_decomp nE nB e i he hi
  have hcount : (mainTrace nE nB).count (Ev.optStep e i) = 1 := by
    rw [count_mainTrace_optStep]
    simp [he, hi]
  refine ⟨hdec, hcount, ?_, fun j => computeCoeffs_not_mem_trainTrace j nB nE⟩
  obtain ⟨l1, l2, hdec'⟩ := hdec
  have hdec2 : mainTrace nE nB
      = (l1 ++ [Ev.forwardPass e i, Ev.lossComp e i, Ev.backwardComp e i])
        ++ Ev.optStep e i :: (Ev.zeroGrad e i :: l2) := by
    rw [hdec']
    simp [batchEvents]
  intro u v huv
  have hu := eq_split_of_count_one (Ev.optStep e i)
    (l1 ++ [Ev.forwardPass e i, Ev.lossComp e i, Ev.backwardComp e i])
    (Ev.zeroGrad e i :: l2) u v (by rw [← hdec2]; exact huv)
    (by rw [← hdec2]; exact hcount)
  rw [← hu]
  simp

/-- Witness for C6 at the concrete schedule of the script: 100 epochs of 4
batches, at epoch 0 and batch 0. -/
theorem claim_C6_witness :
    0 < 100 ∧ 0 < 4 ∧
    ((∃ l1 l2, mainTrace 100 4 = l1 ++ batchEvents 0 0 ++ l2) ∧
      (mainTrace 100 4).count (Ev.optStep 0 0) = 1 ∧
      (∀ u v, mainTrace 100 4 = u ++ Ev.optStep 0 0 :: v →
        Ev.backwardComp 0 0 ∈ u) ∧
      ∀ j, Ev.computeCoeffs j ∉ trainTrace 4 100) :=
  ⟨by decide, by decide,
    claim_C6_batch_step_order 100 4 0 0 (by decide) (by decide)⟩

/-- The thresholded prediction of the evaluation phase:
`(torch.sigmoid(pred_y) > 0.5)` cast to the label dtype. -/
def binaryPrediction (sigmoidF : ℚ → ℚ) (pred_y : Fin 128 → ℚ)
    (i : Fin 128) : ℚ :=
  if 1 / 2 < sigmoidF (pred_y i) then 1 else 0

/-- The per-sample match indicator `(binary_prediction == test_y)` cast to
the label dtype. -/
def predictionMatches (sigmoidF : ℚ → ℚ) (pred_y : Fin 128 → ℚ)
    (yTrue : Fin 128 → ℚ) (i : Fin 128) : ℚ :=
  if binaryPrediction sigmoidF pred_y i = yTrue i then 1 else 0

/-- The evaluation phase of `main`: generate a fresh test dataset from its
own random draw, compute the model's logits on it (the model and the spline
coefficient computation are abstracted into `modelPredict`), threshold the
sigmoid of each logit at 0.5, compare to the true labels, and return the
summed match indicators divided by the test-set size 128. -/
def evalPhase (env : MathEnv) (sigmoidF : ℚ → ℚ)
    (modelPredict : Dataset → Fin 128 → ℚ) (testDraw : RNGDraw) : ℚ :=
  (∑ i, predictionMatches sigmoidF
    (modelPredict (get_data env testDraw)) (get_data env testDraw).y i) / 128

/-- C7: the evaluation phase computes its predictions on a freshly generated
test dataset (a separate call of `get_data` on the test draw), assigns the
binary prediction by thresholding the sigmoid of each logit at 0.5, and the
reported value is the fraction of samples predicted correctly: the number of
matching samples divided by the test-set size 128. -/
theorem claim_C7_evaluation (env : MathEnv) (sigmoidF : ℚ → ℚ)
    (modelPredict : Dataset → Fin 128 → ℚ) (testDraw : RNGDraw) :
    evalPhase env sigmoidF modelPredict testDraw
      = ((Finset.univ.filter fun i : Fin 128 =>
          binaryPrediction sigmoidF (modelPredict (get_data env testDraw)) i
            = (get_data env testDraw).y i).card : ℚ) / 128 ∧
    ∀ i : Fin 128,
      binaryPrediction sigmoidF (modelPredict (get_data env testDraw)) i = 1
        ↔ 1 / 2 < sigmoidF (modelPredict (get_data env testDraw) i) := by
  constructor
  · unfold evalPhase predictionMatches
    rw [Finset.sum_boole]
  · intro i
    unfold binaryPrediction
    by_cases h : 1 / 2 < sigmoidF (modelPredict (get_data env testDraw) i)
    · simp [h]
    · simp [h]
